import Mathlib

/-!
# rawexec: loading raw machine code into executable memory

A shallow embedding of the Go package `rawexec` (files `rawexec.go`,
`alloc_unix.go`, `alloc_windows.go`).  The operating system and the Go
standard-library wrappers around it (`syscall.Mmap`, `syscall.Munmap`,
`windows.VirtualAlloc`, `windows.VirtualFree`) are not part of the package;
they are an explicit parameter `OS` whose answers may depend on the whole
state of the world.  Every call into the platform and every store into memory
is appended to a trace, so that "was never invoked" and "exactly once" are
statements about that trace.

Go values of type `int` are `Int`, addresses (`uintptr`) are `Nat`.  The only
`int` arithmetic in the package is `(1<<30) - gfs` and `len(bin) + gfs` with
`0 <= len(bin)`, `gfs` in `{4, 8}` and, for the sum, `len(bin) <= 2^30 - gfs`;
neither can leave the range of a 32-bit `int`.
-/

namespace Rawexec

/-! ## Data model -/

/-- One byte of memory. -/
abbrev Byte := Fin 256

/-- Build target: Go only has 32-bit and 64-bit targets, of either byte order. -/
structure Arch where
  is64 : Bool
  bigEndian : Bool
deriving DecidableEq, Repr

/-- Size in bytes of a pointer (and of `uintptr`) on the target. -/
def Arch.ptrSize (arch : Arch) : Nat := if arch.is64 then 8 else 4

/-- The 64-bit x86 target. -/
def amd64 : Arch := ⟨true, false⟩

/-- The 32-bit x86 target. -/
def i386 : Arch := ⟨false, false⟩

/-- Which of the two build-tagged allocator files is compiled in:
`alloc_unix.go` (linux, darwin) or `alloc_windows.go`. -/
inductive GOOS where
  | unix
  | windows
deriving DecidableEq, Repr

/-- Go `error` values built by this package.  `fmt.Errorf` is kept unrendered:
the format string with its single operand, either an integer (`%d`) or a
wrapped error (`%w`). -/
inductive GoError where
  | errno (code : Nat)
  | errorfInt (format : String) (arg : Int)
  | errorfWrap (format : String) (cause : GoError)
deriving DecidableEq, Repr

/-- The `errors.Unwrap` of an error: the operand of `%w`, if any. -/
def GoError.Unwrap : GoError → Option GoError
  | .errorfWrap _ cause => some cause
  | _ => none

/-- Run-time panics the Go runtime raises on a bad index or slice bound. -/
inductive RuntimePanic where
  | indexOutOfRange (index length : Int)
  | sliceBoundsOutOfRange (high capacity : Int)
deriving DecidableEq, Repr

/-- Result of running a Go function body: it returns, or it panics. -/
inductive Outcome (α : Type) where
  | ret (val : α)
  | panic (p : RuntimePanic)
deriving DecidableEq, Repr

/-- Go slice header of a `[]byte`: data pointer, length, capacity. -/
structure Slice where
  ptr : Nat
  len : Int
  cap : Int
deriving DecidableEq, Repr

/-- Go func value of type `FuncSignature`: a pointer to a funcval record whose
first word is the code pointer.  Stored as the address it holds. -/
abbrev FuncSignature := Nat

/-- Caller holds executable memory and a callable function pointer. -/
structure Caller where
  buf : Slice
  Call : FuncSignature
deriving DecidableEq, Repr

/-- What the program did to the outside world, in order. -/
inductive Event where
  | Mmap (length : Int)
  | Munmap (addr : Nat) (length : Int)
  | VirtualAlloc (size : Nat)
  | VirtualFree (addr : Nat) (size : Nat)
  | store (addr : Nat) (bytes : List Byte)
deriving DecidableEq, Repr

/-- State of the process: memory contents, the regions currently obtained from
the platform (base address, length), and the trace of events so far. -/
structure World where
  mem : Nat → Byte
  live : List (Nat × Nat)
  trace : List Event

/-- The platform: for each primitive, the answer it gives in a given world,
an errno on failure.  `mmap` and `virtualAlloc` answer with a base address. -/
structure OS where
  mmap : World → Int → Except Nat Nat
  munmap : World → Nat → Int → Option Nat
  virtualAlloc : World → Nat → Except Nat Nat
  virtualFree : World → Nat → Nat → Option Nat

/-! ## Memory -/

/-- Memory after storing `bytes` at consecutive addresses from `addr`. -/
def storeBytes (mem : Nat → Byte) (addr : Nat) (bytes : List Byte) : Nat → Byte :=
  fun a => if addr ≤ a then (bytes[a - addr]?).getD (mem a) else mem a

/-- The `n` bytes of memory from `addr`. -/
def loadBytes (mem : Nat → Byte) (addr n : Nat) : List Byte :=
  (List.range n).map (fun i => mem (addr + i))

/-- The `n` low-order base-256 digits of `v`, least significant first. -/
def leBytes : Nat → Nat → List Byte
  | 0, _ => []
  | n + 1, v => ⟨v % 256, Nat.mod_lt v (by decide)⟩ :: leBytes n (v / 256)

/-- Value of a little-endian digit string. -/
def leValue : List Byte → Nat
  | [] => 0
  | b :: bs => b.val + 256 * leValue bs

/-- In-memory representation of a `uintptr` on the target (the value is
truncated to the width of a pointer). -/
def encodeUintptr (arch : Arch) (v : Nat) : List Byte :=
  if arch.bigEndian then (leBytes arch.ptrSize v).reverse else leBytes arch.ptrSize v

/-- The `uintptr` represented by a string of bytes on the target. -/
def decodeUintptr (arch : Arch) (bytes : List Byte) : Nat :=
  leValue (if arch.bigEndian then bytes.reverse else bytes)

/-- The world with one more event at the end of its trace. -/
def World.log (w : World) (ev : Event) : World :=
  { w with trace := w.trace ++ [ev] }

/-- A store by the program: recorded in the trace and applied to memory. -/
def World.store (w : World) (addr : Nat) (bytes : List Byte) : World :=
  { w.log (Event.store addr bytes) with mem := storeBytes w.mem addr bytes }

/-- A fresh mapping of `size` bytes at `addr` (zero-filled by the platform)
joins the live regions. -/
def World.map (w : World) (addr size : Nat) : World :=
  { w with mem := storeBytes w.mem addr (List.replicate size 0), live := w.live ++ [(addr, size)] }

/-- Address of element `i` of a slice (`&b[i]`), with Go's bounds check. -/
def Slice.indexAddr (b : Slice) (i : Int) : Outcome Nat :=
  if 0 ≤ i ∧ i < b.len then .ret (b.ptr + i.toNat) else .panic (.indexOutOfRange i b.len)

/-- The slice expression `b[low:]`, with Go's bounds check. -/
def Slice.sliceFrom (b : Slice) (low : Int) : Outcome Slice :=
  if 0 ≤ low ∧ low ≤ b.len then .ret ⟨b.ptr + low.toNat, b.len - low, b.cap - low⟩
  else .panic (.sliceBoundsOutOfRange low b.len)

/-- The element `b[i]` as read from memory, with Go's bounds check. -/
def Slice.read (w : World) (b : Slice) (i : Int) : Outcome Byte :=
  match b.indexAddr i with
  | .ret a => .ret (w.mem a)
  | .panic p => .panic p

/-- The built-in `copy(dst, src)`: copies `min(len(dst), len(src))` bytes. -/
def copy (w : World) (dst : Slice) (src : List Byte) : World :=
  w.store dst.ptr (src.take (min dst.len.toNat src.length))

/-! ## Platform primitives -/

/-- The call `syscall.Mmap(-1, 0, length, PROT_READ|PROT_WRITE|PROT_EXEC,
MAP_PRIVATE|MAP_ANON)`: on success a slice of exactly `length` bytes over the
new mapping. -/
def syscall_Mmap (os : OS) (w : World) (length : Int) : Except Nat Slice × World :=
  let w1 := w.log (Event.Mmap length)
  match os.mmap w length with
  | .error e => (.error e, w1)
  | .ok addr => (.ok ⟨addr, length, length⟩, w1.map addr length.toNat)

/-- The call `syscall.Munmap(b)`: on success the mapping is gone. -/
def syscall_Munmap (os : OS) (w : World) (b : Slice) : Option Nat × World :=
  let w1 := w.log (Event.Munmap b.ptr b.len)
  match os.munmap w b.ptr b.len with
  | some e => (some e, w1)
  | none => (none, { w1 with live := w1.live.filter (fun r => !(r.1 == b.ptr && r.2 == b.len.toNat)) })

/-- The call `windows.VirtualAlloc(0, size, MEM_COMMIT|MEM_RESERVE,
PAGE_EXECUTE_READWRITE)`: on success the base address of the region. -/
def windows_VirtualAlloc (os : OS) (w : World) (size : Nat) : Except Nat Nat × World :=
  let w1 := w.log (Event.VirtualAlloc size)
  match os.virtualAlloc w size with
  | .error e => (.error e, w1)
  | .ok addr => (.ok addr, w1.map addr size)

/-- The call `windows.VirtualFree(addr, size, MEM_RELEASE)`: with `MEM_RELEASE`
the whole region reserved at base `addr` is released. -/
def windows_VirtualFree (os : OS) (w : World) (addr size : Nat) : Option Nat × World :=
  let w1 := w.log (Event.VirtualFree addr size)
  match os.virtualFree w addr size with
  | some e => (some e, w1)
  | none => (none, { w1 with live := w1.live.filter (fun r => !(r.1 == addr)) })

/-! ## alloc_unix.go -/

/-- The function `alloc` of `alloc_unix.go`. -/
def alloc_unix (os : OS) (w : World) (size : Int) : Outcome (Except GoError Slice) × World :=
  -- b, err := syscall.Mmap(fd, int64(offset), size, prot, flags)
  match syscall_Mmap os w size with
  -- if err != nil: return nil, fmt.Errorf("mmap failed: %w", err)
  | (.error err, w1) => (.ret (.error (.errorfWrap "mmap failed: %w" (.errno err))), w1)
  -- return b, nil
  | (.ok b, w1) => (.ret (.ok b), w1)

/-- The function `free` of `alloc_unix.go`. -/
def free_unix (os : OS) (w : World) (b : Slice) : Option GoError × World :=
  -- if err := syscall.Munmap(b); err != nil: return fmt.Errorf("munmap failed: %w", err)
  match syscall_Munmap os w b with
  | (some err, w1) => (some (.errorfWrap "munmap failed: %w" (.errno err)), w1)
  -- return nil
  | (none, w1) => (none, w1)

/-! ## alloc_windows.go -/

/-- The function `alloc` of `alloc_windows.go`.  The result is the full slice
expression `[:size:size]` over an array view of `1 << 30` bytes, which panics
when `size` exceeds the array length. -/
def alloc_windows (os : OS) (w : World) (size : Int) : Outcome (Except GoError Slice) × World :=
  -- if size <= 0: return nil, fmt.Errorf("invalid size: %d", size)
  if size ≤ 0 then
    (.ret (.error (.errorfInt "invalid size: %d" size)), w)
  else
    -- addr, err := windows.VirtualAlloc(0, uintptr(size), MEM_COMMIT|MEM_RESERVE, ...)
    match windows_VirtualAlloc os w size.toNat with
    -- if err != nil: return nil, fmt.Errorf("VirtualAlloc failed: %w", err)
    | (.error err, w1) => (.ret (.error (.errorfWrap "VirtualAlloc failed: %w" (.errno err))), w1)
    | (.ok addr, w1) =>
      -- return (*[1 << 30]byte)(addr)[:size:size], nil
      if size ≤ 2 ^ 30 then (.ret (.ok ⟨addr, size, size⟩), w1)
      else (.panic (.sliceBoundsOutOfRange size (2 ^ 30)), w1)

/-- The function `free` of `alloc_windows.go`. -/
def free_windows (os : OS) (w : World) (b : Slice) : Option GoError × World :=
  -- if len(b) == 0: return nil
  if b.len = 0 then
    (none, w)
  else
    -- err := windows.VirtualFree(uintptr(&b[0]), 0, windows.MEM_RELEASE)
    match windows_VirtualFree os w b.ptr 0 with
    | (some err, w1) => (some (.errorfWrap "VirtualFree failed: %w" (.errno err)), w1)
    | (none, w1) => (none, w1)

/-- The `alloc` selected by the build tags. -/
def alloc (goos : GOOS) (os : OS) (w : World) (size : Int) :
    Outcome (Except GoError Slice) × World :=
  match goos with
  | .unix => alloc_unix os w size
  | .windows => alloc_windows os w size

/-- The `free` selected by the build tags. -/
def free (goos : GOOS) (os : OS) (w : World) (b : Slice) : Option GoError × World :=
  match goos with
  | .unix => free_unix os w b
  | .windows => free_windows os w b

/-! ## rawexec.go -/

/-- The function `goFuncvalSize`: `unsafe.Sizeof` of a value of type
`FuncSignature`.  A Go func value is one pointer, so this is the pointer size
of the target. -/
def goFuncvalSize (arch : Arch) : Int := arch.ptrSize

/-- The function `New`. -/
def New (arch : Arch) (goos : GOOS) (os : OS) (w : World) (bin : List Byte) :
    Outcome (Except GoError Caller) × World :=
  -- gfs := goFuncvalSize()
  let gfs := goFuncvalSize arch
  -- if len(bin) > (1<<30)-gfs: return nil, fmt.Errorf("binary too large: %d bytes", len(bin))
  if (bin.length : Int) > 2 ^ 30 - gfs then
    (.ret (.error (.errorfInt "binary too large: %d bytes" bin.length)), w)
  else
    -- codeBuf, err := alloc(len(bin) + gfs)
    match alloc goos os w (bin.length + gfs) with
    | (.panic p, w1) => (.panic p, w1)
    -- if err != nil: return nil, fmt.Errorf("alloc failed: %w", err)
    | (.ret (.error err), w1) => (.ret (.error (.errorfWrap "alloc failed: %w" err)), w1)
    | (.ret (.ok codeBuf), w1) =>
      -- *(*uintptr)(&codeBuf[0]) = uintptr(&codeBuf[gfs])
      match codeBuf.indexAddr 0 with
      | .panic p => (.panic p, w1)
      | .ret p0 =>
        match codeBuf.indexAddr gfs with
        | .panic p => (.panic p, w1)
        | .ret pg =>
          let w2 := w1.store p0 (encodeUintptr arch pg)
          -- copy(codeBuf[gfs:], bin)
          match codeBuf.sliceFrom gfs with
          | .panic p => (.panic p, w2)
          | .ret dst =>
            let w3 := copy w2 dst bin
            -- f is the first word of the slice header of codeBuf, its data pointer
            let f : FuncSignature := codeBuf.ptr
            -- return &Caller(buf: codeBuf, Call: f), nil
            (.ret (.ok { buf := codeBuf, Call := f }), w3)

/-- The method `Caller.Free`. -/
def Caller.Free (goos : GOOS) (os : OS) (w : World) (c : Caller) : Option GoError × World :=
  -- if err := free(c.buf); err != nil: return fmt.Errorf("free failed: %w", err)
  match free goos os w c.buf with
  | (some err, w1) => (some (.errorfWrap "free failed: %w" err), w1)
  -- return nil
  | (none, w1) => (none, w1)

/-- Code address the Go runtime jumps to when a func value is called: the
first word of the funcval record the value points to. -/
def codePointer (arch : Arch) (w : World) (f : FuncSignature) : Nat :=
  decodeUintptr arch (loadBytes w.mem f arch.ptrSize)

/-! ## Observations on traces and results -/

/-- The request by which the selected `alloc` asks the platform for `size`
bytes (`size` converted to `uintptr` on Windows). -/
def allocEvent (goos : GOOS) (size : Int) : Event :=
  match goos with
  | .unix => .Mmap size
  | .windows => .VirtualAlloc size.toNat

/-- The answer of the platform, in world `w`, to the release request the
selected `free` makes for the slice `b`: `none` when the release succeeds. -/
def osRelease (goos : GOOS) (os : OS) (w : World) (b : Slice) : Option Nat :=
  match goos with
  | .unix => os.munmap w b.ptr b.len
  | .windows => os.virtualFree w b.ptr 0

/-- Size asked of the platform allocator by an event, if it is such a request. -/
def Event.allocRequest : Event → Option Int
  | .Mmap length => some length
  | .VirtualAlloc size => some size
  | _ => none

/-- Sizes of all allocation requests in a trace, in order. -/
def allocRequests (trace : List Event) : List Int :=
  trace.filterMap Event.allocRequest

/-- Whether an event is a release request to the platform. -/
def Event.isRelease : Event → Bool
  | .Munmap _ _ => true
  | .VirtualFree _ _ => true
  | _ => false

/-- Whether an event is a store into memory. -/
def Event.isStore : Event → Bool
  | .store _ _ => true
  | _ => false

/-- The size error of `New`: the one built from the format
`binary too large: %d bytes`. -/
def isSizeError : GoError → Bool
  | .errorfInt format _ => format == "binary too large: %d bytes"
  | _ => false

/-- A platform on which every request succeeds, mappings landing at `base`. -/
def osAlways (base : Nat) : OS :=
  { mmap := fun _ _ => .ok base
    munmap := fun _ _ _ => none
    virtualAlloc := fun _ _ => .ok base
    virtualFree := fun _ _ _ => none }

/-- A platform on which every request fails with errno `e`. -/
def osNever (e : Nat) : OS :=
  { mmap := fun _ _ => .error e
    munmap := fun _ _ _ => some e
    virtualAlloc := fun _ _ => .error e
    virtualFree := fun _ _ _ => some e }

/-- The amd64 test binary of `rawexec_test.go`: `movsd xmm0, [rax]`;
`addsd xmm0, [rax+8]`; `movsd [rax+16], xmm0`; `ret`. -/
def addSSEAmd64Binary : List Byte :=
  [0xF2, 0x0F, 0x10, 0x00, 0xF2, 0x0F, 0x58, 0x40, 0x08, 0xF2, 0x0F, 0x11, 0x40, 0x10, 0xC3]

/-- The initial world: zeroed memory, nothing mapped, nothing done. -/
def World.init : World := { mem := fun _ => 0, live := [], trace := [] }

/-! ## Memory and encoding lemmas -/

theorem goFuncvalSize_cases (arch : Arch) : goFuncvalSize arch = 4 ∨ goFuncvalSize arch = 8 := by
  unfold goFuncvalSize Arch.ptrSize
  cases arch.is64 <;> simp

theorem ptrSize_eq_toNat (arch : Arch) : arch.ptrSize = (goFuncvalSize arch).toNat := by
  unfold goFuncvalSize
  simp

theorem storeBytes_below (mem : Nat → Byte) (addr : Nat) (bytes : List Byte) (a : Nat)
    (h : a < addr) : storeBytes mem addr bytes a = mem a := by
  unfold storeBytes
  rw [if_neg (by omega)]

theorem storeBytes_inside (mem : Nat → Byte) (addr : Nat) (bytes : List Byte) (i : Nat)
    (h : i < bytes.length) : storeBytes mem addr bytes (addr + i) = bytes[i] := by
  unfold storeBytes
  rw [if_pos (by omega)]
  simp [h]

theorem loadBytes_of_agree (mem : Nat → Byte) (addr : Nat) (bytes : List Byte)
    (h : ∀ i (hi : i < bytes.length), mem (addr + i) = bytes[i]) :
    loadBytes mem addr bytes.length = bytes := by
  apply List.ext_getElem
  · simp [loadBytes]
  · intro i h1 h2
    simp [loadBytes, h i h2]

theorem leBytes_length (n v : Nat) : (leBytes n v).length = n := by
  induction n generalizing v with
  | zero => rfl
  | succ n ih => simp [leBytes, ih]

theorem leValue_leBytes (n v : Nat) : leValue (leBytes n v) = v % 256 ^ n := by
  induction n generalizing v with
  | zero => simp [leBytes, leValue, Nat.mod_one]
  | succ n ih =>
    simp only [leBytes, leValue, ih]
    rw [pow_succ', Nat.mod_mul]

theorem encodeUintptr_length (arch : Arch) (v : Nat) :
    (encodeUintptr arch v).length = arch.ptrSize := by
  unfold encodeUintptr
  split <;> simp [leBytes_length]

theorem decode_encodeUintptr (arch : Arch) (v : Nat) :
    decodeUintptr arch (encodeUintptr arch v) = v % 256 ^ arch.ptrSize := by
  unfold decodeUintptr encodeUintptr
  cases arch.bigEndian <;> simp [leValue_leBytes]


/-! ## The control flow of `alloc` and `New` -/

theorem alloc_cases (goos : GOOS) (os : OS) (w : World) (s : Int) (h0 : 0 < s) (h1 : s ≤ 2 ^ 30) :
    (∃ e, (∃ format errno, e = GoError.errorfWrap format (GoError.errno errno)) ∧
      alloc goos os w s = (.ret (.error e), w.log (allocEvent goos s))) ∨
    (∃ A, alloc goos os w s
      = (.ret (.ok ⟨A, s, s⟩), (w.log (allocEvent goos s)).map A s.toNat)) := by
  cases goos with
  | unix =>
    simp only [alloc, alloc_unix, syscall_Mmap, allocEvent, World.log]
    cases h : os.mmap w s with
    | error e => exact Or.inl ⟨_, ⟨_, _, rfl⟩, rfl⟩
    | ok A => exact Or.inr ⟨A, rfl⟩
  | windows =>
    simp only [alloc, alloc_windows, windows_VirtualAlloc, allocEvent, World.log]
    rw [if_neg (by omega)]
    cases h : os.virtualAlloc w s.toNat with
    | error e => exact Or.inl ⟨_, ⟨_, _, rfl⟩, rfl⟩
    | ok A =>
      refine Or.inr ⟨A, ?_⟩
      simp only [h1, if_true]

theorem New_of_too_large (arch : Arch) (goos : GOOS) (os : OS) (w : World) (bin : List Byte)
    (h : (bin.length : Int) > 2 ^ 30 - goFuncvalSize arch) :
    New arch goos os w bin
      = (.ret (.error (.errorfInt "binary too large: %d bytes" bin.length)), w) := by
  simp only [New, h, if_true]

theorem New_of_alloc_error (arch : Arch) (goos : GOOS) (os : OS) (w : World) (bin : List Byte)
    (hsz : ¬ (bin.length : Int) > 2 ^ 30 - goFuncvalSize arch) (err : GoError) (w1 : World)
    (hal : alloc goos os w (bin.length + goFuncvalSize arch) = (.ret (.error err), w1)) :
    New arch goos os w bin = (.ret (.error (.errorfWrap "alloc failed: %w" err)), w1) := by
  simp only [New, hsz, if_false, hal]

theorem New_of_alloc_ok (arch : Arch) (goos : GOOS) (os : OS) (w : World) (bin : List Byte)
    (hsz : ¬ (bin.length : Int) > 2 ^ 30 - goFuncvalSize arch) (hne : bin ≠ [])
    (A : Nat) (w1 : World)
    (hal : alloc goos os w (bin.length + goFuncvalSize arch)
      = (.ret (.ok ⟨A, bin.length + goFuncvalSize arch, bin.length + goFuncvalSize arch⟩), w1)) :
    New arch goos os w bin
      = (.ret (.ok ⟨⟨A, bin.length + goFuncvalSize arch, bin.length + goFuncvalSize arch⟩, A⟩),
          (w1.store A (encodeUintptr arch (A + (goFuncvalSize arch).toNat))).store
            (A + (goFuncvalSize arch).toNat) bin) := by
  have hlen : 0 < bin.length := List.length_pos.mpr hne
  have hg := goFuncvalSize_cases arch
  simp only [New, hsz, if_false, hal, Slice.indexAddr, Slice.sliceFrom, copy]
  rw [if_pos (by omega), if_pos (by omega), if_pos (by omega)]
  simp

theorem New_of_alloc_ok_empty (arch : Arch) (goos : GOOS) (os : OS) (w : World)
    (A : Nat) (w1 : World)
    (hal : alloc goos os w (goFuncvalSize arch)
      = (.ret (.ok ⟨A, goFuncvalSize arch, goFuncvalSize arch⟩), w1)) :
    New arch goos os w []
      = (.panic (.indexOutOfRange (goFuncvalSize arch) (goFuncvalSize arch)), w1) := by
  have hg := goFuncvalSize_cases arch
  have hsz : ¬ (([] : List Byte).length : Int) > 2 ^ 30 - goFuncvalSize arch := by
    simp only [List.length_nil]; omega
  simp only [New, hsz, if_false, Slice.indexAddr]
  simp only [List.length_nil, Nat.cast_zero, zero_add, hal]
  rw [if_pos (by omega), if_neg (by omega)]

theorem size_in_range (arch : Arch) (bin : List Byte)
    (hsz : ¬ (bin.length : Int) > 2 ^ 30 - goFuncvalSize arch) :
    0 < (bin.length : Int) + goFuncvalSize arch ∧
    (bin.length : Int) + goFuncvalSize arch ≤ 2 ^ 30 := by
  have hg := goFuncvalSize_cases arch
  omega

/-- What `New` does once the size check has passed: the allocator is asked for
`len(bin) + gfs` bytes and then one of three things happens. -/
theorem New_cases (arch : Arch) (goos : GOOS) (os : OS) (w : World) (bin : List Byte)
    (hsz : ¬ (bin.length : Int) > 2 ^ 30 - goFuncvalSize arch) :
    (∃ e, (∃ format errno, e = GoError.errorfWrap format (GoError.errno errno)) ∧
          alloc goos os w (bin.length + goFuncvalSize arch)
            = (.ret (.error e), w.log (allocEvent goos (bin.length + goFuncvalSize arch))) ∧
          New arch goos os w bin
            = (.ret (.error (.errorfWrap "alloc failed: %w" e)),
                w.log (allocEvent goos (bin.length + goFuncvalSize arch)))) ∨
    (∃ A, bin = [] ∧
          alloc goos os w (bin.length + goFuncvalSize arch)
            = (.ret (.ok ⟨A, bin.length + goFuncvalSize arch, bin.length + goFuncvalSize arch⟩),
                (w.log (allocEvent goos (bin.length + goFuncvalSize arch))).map A
                  ((bin.length : Int) + goFuncvalSize arch).toNat) ∧
          New arch goos os w bin
            = (.panic (.indexOutOfRange (goFuncvalSize arch) (goFuncvalSize arch)),
                (w.log (allocEvent goos (bin.length + goFuncvalSize arch))).map A
                  ((bin.length : Int) + goFuncvalSize arch).toNat)) ∨
    (∃ A, bin ≠ [] ∧
          alloc goos os w (bin.length + goFuncvalSize arch)
            = (.ret (.ok ⟨A, bin.length + goFuncvalSize arch, bin.length + goFuncvalSize arch⟩),
                (w.log (allocEvent goos (bin.length + goFuncvalSize arch))).map A
                  ((bin.length : Int) + goFuncvalSize arch).toNat) ∧
          New arch goos os w bin
            = (.ret (.ok ⟨⟨A, bin.length + goFuncvalSize arch, bin.length + goFuncvalSize arch⟩, A⟩),
                ((((w.log (allocEvent goos (bin.length + goFuncvalSize arch))).map A
                  ((bin.length : Int) + goFuncvalSize arch).toNat).store A
                    (encodeUintptr arch (A + (goFuncvalSize arch).toNat))).store
                      (A + (goFuncvalSize arch).toNat) bin))) := by
  obtain ⟨h0, h1⟩ := size_in_range arch bin hsz
  rcases alloc_cases goos os w _ h0 h1 with ⟨e, hshape, he⟩ | ⟨A, hA⟩
  · exact Or.inl ⟨e, hshape, he, New_of_alloc_error arch goos os w bin hsz e _ he⟩
  · by_cases hb : bin = []
    · subst hb
      refine Or.inr (Or.inl ⟨A, rfl, hA, ?_⟩)
      simp only [List.length_nil, Nat.cast_zero, zero_add] at hA ⊢
      exact New_of_alloc_ok_empty arch goos os w A _ hA
    · exact Or.inr (Or.inr ⟨A, hb, hA, New_of_alloc_ok arch goos os w bin hsz hb A _ hA⟩)

theorem allocRequest_allocEvent (goos : GOOS) (s : Int) (h : 0 < s) :
    (allocEvent goos s).allocRequest = some s := by
  cases goos with
  | unix => rfl
  | windows =>
    simp only [allocEvent, Event.allocRequest]
    rw [Int.toNat_of_nonneg (le_of_lt h)]

/-! ## C1: the size ceiling -/

/-- C1, refuted as stated: a binary of exactly `2^30 - goFuncvalSize()` bytes
is "at the ceiling", yet on amd64 with a platform that grants every request
`New` asks for `2^30` bytes and returns a Caller and no error, and the region
stays allocated. -/
theorem New_at_ceiling_succeeds :
    ((List.replicate (2 ^ 30 - 8) (0 : Byte)).length : Int) ≥ 2 ^ 30 - goFuncvalSize amd64 ∧
    (New amd64 GOOS.unix (osAlways 4096) World.init (List.replicate (2 ^ 30 - 8) 0)).1
      = Outcome.ret (Except.ok { buf := ⟨4096, 2 ^ 30, 2 ^ 30⟩, Call := 4096 }) ∧
    (New amd64 GOOS.unix (osAlways 4096) World.init (List.replicate (2 ^ 30 - 8) 0)).2.live
      = [(4096, 2 ^ 30)] := by
  have hlen : ((List.replicate (2 ^ 30 - 8) (0 : Byte)).length : Int) = 2 ^ 30 - 8 := by
    rw [List.length_replicate]; norm_num
  have hg : goFuncvalSize amd64 = 8 := rfl
  have hsz : ¬ ((List.replicate (2 ^ 30 - 8) (0 : Byte)).length : Int)
      > 2 ^ 30 - goFuncvalSize amd64 := by
    rw [hlen, hg]; omega
  have hne : List.replicate (2 ^ 30 - 8) (0 : Byte) ≠ [] := by
    intro h
    have := congrArg List.length h
    rw [List.length_replicate] at this
    simp at this
  have hal : alloc GOOS.unix (osAlways 4096) World.init
      (((List.replicate (2 ^ 30 - 8) (0 : Byte)).length : Int) + goFuncvalSize amd64)
      = (Outcome.ret (Except.ok ⟨4096,
          ((List.replicate (2 ^ 30 - 8) (0 : Byte)).length : Int) + goFuncvalSize amd64,
          ((List.replicate (2 ^ 30 - 8) (0 : Byte)).length : Int) + goFuncvalSize amd64⟩),
        (World.init.log (Event.Mmap
          (((List.replicate (2 ^ 30 - 8) (0 : Byte)).length : Int) + goFuncvalSize amd64))).map
          4096 (((List.replicate (2 ^ 30 - 8) (0 : Byte)).length : Int)
            + goFuncvalSize amd64).toNat) := rfl
  have hnew := New_of_alloc_ok amd64 GOOS.unix (osAlways 4096) World.init _ hsz hne 4096 _ hal
  have hs : ((List.replicate (2 ^ 30 - 8) (0 : Byte)).length : Int) + goFuncvalSize amd64
      = 2 ^ 30 := by
    rw [hlen, hg]; norm_num
  rw [hnew]
  refine ⟨by rw [hlen, hg], ?_, ?_⟩
  · simp only [hs]
  · simp only [hs, World.store, World.map, World.log, World.init]
    norm_num
    rfl

/-- C1 (amended): a binary strictly longer than `2^30 - goFuncvalSize()` bytes
is rejected: `New` returns an error and no Caller, and the world is left as it
was, so no region has been allocated. -/
theorem New_rejects_beyond_ceiling (arch : Arch) (goos : GOOS) (os : OS) (w : World)
    (bin : List Byte) (h : (bin.length : Int) > 2 ^ 30 - goFuncvalSize arch) :
    (∃ e, (New arch goos os w bin).1 = Outcome.ret (Except.error e)) ∧
    (New arch goos os w bin).2 = w ∧
    (New arch goos os w bin).2.live = w.live ∧
    allocRequests (New arch goos os w bin).2.trace = allocRequests w.trace := by
  rw [New_of_too_large arch goos os w bin h]
  exact ⟨⟨_, rfl⟩, rfl, rfl, rfl⟩

/-- Witness for C1 (amended): the `2^30` zero bytes of `TestInvalidBinarySize`. -/
theorem New_rejects_beyond_ceiling_witness :
    ((List.replicate (2 ^ 30) (0 : Byte)).length : Int) > 2 ^ 30 - goFuncvalSize amd64 ∧
    (∃ e, (New amd64 GOOS.unix (osAlways 4096) World.init (List.replicate (2 ^ 30) 0)).1
      = Outcome.ret (Except.error e)) ∧
    (New amd64 GOOS.unix (osAlways 4096) World.init (List.replicate (2 ^ 30) 0)).2.live = [] :=
  have h : ((List.replicate (2 ^ 30) (0 : Byte)).length : Int) > 2 ^ 30 - goFuncvalSize amd64 := by
    rw [List.length_replicate, show goFuncvalSize amd64 = 8 from rfl]; norm_num
  ⟨h, (New_rejects_beyond_ceiling amd64 GOOS.unix (osAlways 4096) World.init _ h).1,
    (New_rejects_beyond_ceiling amd64 GOOS.unix (osAlways 4096) World.init _ h).2.2.1⟩

/-! ## C2: the size error -/

theorem New_size_error_only_if (arch : Arch) (goos : GOOS) (os : OS) (w : World)
    (bin : List Byte) (e : GoError)
    (he : (New arch goos os w bin).1 = Outcome.ret (Except.error e)) (hs : isSizeError e = true) :
    (bin.length : Int) > 2 ^ 30 - goFuncvalSize arch := by
  by_contra hsz
  rcases New_cases arch goos os w bin hsz with ⟨e1, _, _, h⟩ | ⟨A, _, _, h⟩ | ⟨A, _, _, h⟩
  · rw [h] at he
    simp only [Outcome.ret.injEq, Except.error.injEq] at he
    subst he
    simp [isSizeError] at hs
  · rw [h] at he
    simp at he
  · rw [h] at he
    simp at he

/-- C2: `New` returns the size error exactly when `len(bin) + goFuncvalSize()`
exceeds `2^30`; and when it does, the world is untouched (the trace holds no
new allocation request) and the outcome does not depend on the platform, so
the violation is detected before any allocation attempt. -/
theorem New_size_error_iff (arch : Arch) (goos : GOOS) (os : OS) (w : World)
    (bin : List Byte) :
    ((∃ e, (New arch goos os w bin).1 = Outcome.ret (Except.error e) ∧ isSizeError e = true)
      ↔ (bin.length : Int) + goFuncvalSize arch > 2 ^ 30) ∧
    ((∃ e, (New arch goos os w bin).1 = Outcome.ret (Except.error e) ∧ isSizeError e = true) →
      (New arch goos os w bin).2 = w ∧
      allocRequests (New arch goos os w bin).2.trace = allocRequests w.trace ∧
      ∀ os2 : OS, New arch goos os2 w bin = New arch goos os w bin) := by
  have key : (∃ e, (New arch goos os w bin).1 = Outcome.ret (Except.error e)
      ∧ isSizeError e = true) → (bin.length : Int) > 2 ^ 30 - goFuncvalSize arch := by
    rintro ⟨e, he, hs⟩
    exact New_size_error_only_if arch goos os w bin e he hs
  refine ⟨⟨fun h => by have := key h; omega, fun h => ?_⟩, fun h => ?_⟩
  · have h2 : (bin.length : Int) > 2 ^ 30 - goFuncvalSize arch := by omega
    rw [New_of_too_large arch goos os w bin h2]
    exact ⟨_, rfl, rfl⟩
  · have h2 := key h
    refine ⟨?_, ?_, fun os2 => ?_⟩
    · rw [New_of_too_large arch goos os w bin h2]
    · rw [New_of_too_large arch goos os w bin h2]
    · rw [New_of_too_large arch goos os w bin h2, New_of_too_large arch goos os2 w bin h2]

/-- Witness for C2: `2^30` bytes on amd64 give the size error, before any
allocation request, even on a platform that would grant one. -/
theorem New_size_error_iff_witness :
    (∃ e, (New amd64 GOOS.windows (osAlways 4096) World.init (List.replicate (2 ^ 30) 0)).1
      = Outcome.ret (Except.error e) ∧ isSizeError e = true) ∧
    allocRequests
      (New amd64 GOOS.windows (osAlways 4096) World.init (List.replicate (2 ^ 30) 0)).2.trace
      = allocRequests World.init.trace :=
  have h : ((List.replicate (2 ^ 30) (0 : Byte)).length : Int) + goFuncvalSize amd64 > 2 ^ 30 := by
    rw [List.length_replicate, show goFuncvalSize amd64 = 8 from rfl]; norm_num
  have hex := (New_size_error_iff amd64 GOOS.windows (osAlways 4096) World.init
    (List.replicate (2 ^ 30) 0)).1.2 h
  ⟨hex, ((New_size_error_iff amd64 GOOS.windows (osAlways 4096) World.init
    (List.replicate (2 ^ 30) 0)).2 hex).2.1⟩

/-! ## C3, C4: the contents of the region -/

theorem alloc_ok_shape (arch : Arch) (goos : GOOS) (os : OS) (w : World) (bin : List Byte)
    (buf : Slice) (hne : bin ≠ [])
    (hsz : ¬ (bin.length : Int) > 2 ^ 30 - goFuncvalSize arch)
    (hal : (alloc goos os w (bin.length + goFuncvalSize arch)).1 = Outcome.ret (Except.ok buf)) :
    buf.len = bin.length + goFuncvalSize arch ∧ buf.cap = bin.length + goFuncvalSize arch ∧
    New arch goos os w bin
      = (Outcome.ret (Except.ok ⟨buf, buf.ptr⟩),
          ((((w.log (allocEvent goos (bin.length + goFuncvalSize arch))).map buf.ptr
            ((bin.length : Int) + goFuncvalSize arch).toNat).store buf.ptr
              (encodeUintptr arch (buf.ptr + (goFuncvalSize arch).toNat))).store
                (buf.ptr + (goFuncvalSize arch).toNat) bin)) := by
  rcases New_cases arch goos os w bin hsz with ⟨e1, _, h, _⟩ | ⟨A, hb, _, _⟩ | ⟨A, _, h, hn⟩
  · rw [h] at hal
    simp at hal
  · exact absurd hb hne
  · rw [h] at hal
    simp only [Outcome.ret.injEq, Except.ok.injEq] at hal
    subst hal
    exact ⟨rfl, rfl, hn⟩

/-- C3: for a non-empty binary within the ceiling for which the allocation
succeeds with buffer `buf`, `New` returns a Caller owning `buf`, and afterwards
`buf[goFuncvalSize() + i]` reads `bin[i]` for every `i < len(bin)`. -/
theorem New_copies_code_verbatim (arch : Arch) (goos : GOOS) (os : OS) (w : World)
    (bin : List Byte) (buf : Slice) (hne : bin ≠ [])
    (hsz : ¬ (bin.length : Int) > 2 ^ 30 - goFuncvalSize arch)
    (hal : (alloc goos os w (bin.length + goFuncvalSize arch)).1 = Outcome.ret (Except.ok buf)) :
    (∃ c, (New arch goos os w bin).1 = Outcome.ret (Except.ok c) ∧ c.buf = buf) ∧
    ∀ (i : Nat) (hi : i < bin.length),
      buf.read (New arch goos os w bin).2 (goFuncvalSize arch + i) = Outcome.ret bin[i] := by
  obtain ⟨hlen, _, hn⟩ := alloc_ok_shape arch goos os w bin buf hne hsz hal
  have hg := goFuncvalSize_cases arch
  rw [hn]
  refine ⟨⟨_, rfl, rfl⟩, fun i hi => ?_⟩
  have hidx : buf.indexAddr (goFuncvalSize arch + i)
      = Outcome.ret (buf.ptr + (goFuncvalSize arch).toNat + i) := by
    unfold Slice.indexAddr
    rw [if_pos (by omega)]
    have : (goFuncvalSize arch + (i : Int)).toNat = (goFuncvalSize arch).toNat + i := by omega
    rw [this, Nat.add_assoc]
  simp only [Slice.read, hidx, World.store]
  exact congrArg Outcome.ret (storeBytes_inside _ _ bin i hi)

/-- Witness for C3: the amd64 test binary, mapped at address 4096; its last
byte `0xC3` is read back at index `8 + 14` of the buffer. -/
theorem New_copies_code_verbatim_witness :
    (∃ c, (New amd64 GOOS.unix (osAlways 4096) World.init addSSEAmd64Binary).1
      = Outcome.ret (Except.ok c) ∧ c.buf = ⟨4096, 23, 23⟩) ∧
    Slice.read (New amd64 GOOS.unix (osAlways 4096) World.init addSSEAmd64Binary).2
      ⟨4096, 23, 23⟩ (goFuncvalSize amd64 + (14 : Nat)) = Outcome.ret 0xC3 :=
  have h := New_copies_code_verbatim amd64 GOOS.unix (osAlways 4096) World.init
    addSSEAmd64Binary ⟨4096, 23, 23⟩ (by decide) (by decide) rfl
  ⟨h.1, h.2 14 (by decide)⟩

theorem first_word_after_New (arch : Arch) (mem : Nat → Byte) (A : Nat) (bin : List Byte) :
    loadBytes (storeBytes (storeBytes mem A
        (encodeUintptr arch (A + (goFuncvalSize arch).toNat)))
        (A + (goFuncvalSize arch).toNat) bin) A arch.ptrSize
      = encodeUintptr arch (A + (goFuncvalSize arch).toNat) := by
  have hl := encodeUintptr_length arch (A + (goFuncvalSize arch).toNat)
  have hp := ptrSize_eq_toNat arch
  have := loadBytes_of_agree (storeBytes (storeBytes mem A
        (encodeUintptr arch (A + (goFuncvalSize arch).toNat)))
        (A + (goFuncvalSize arch).toNat) bin) A
        (encodeUintptr arch (A + (goFuncvalSize arch).toNat)) (by
    intro i hi
    rw [storeBytes_below _ _ _ _ (by omega)]
    exact storeBytes_inside _ _ _ i hi)
  rw [hl] at this
  exact this

/-- C4: for a non-empty binary within the ceiling for which the allocation
succeeds with a buffer at base address `A` lying inside the address space,
`New` stores the `uintptr` `A + goFuncvalSize()` at `A`, so the first machine
word of the region holds that value; the returned `Call` is the address `A`
itself; hence the code pointer reached through `Call` is `A + goFuncvalSize()`,
which is the address of `buf[goFuncvalSize()]`, the first copied code byte. -/
theorem New_code_pointer (arch : Arch) (goos : GOOS) (os : OS) (w : World)
    (bin : List Byte) (buf : Slice) (hne : bin ≠ [])
    (hsz : ¬ (bin.length : Int) > 2 ^ 30 - goFuncvalSize arch)
    (hal : (alloc goos os w (bin.length + goFuncvalSize arch)).1 = Outcome.ret (Except.ok buf))
    (haddr : buf.ptr + buf.len.toNat ≤ 2 ^ (8 * arch.ptrSize)) :
    ∃ c, (New arch goos os w bin).1 = Outcome.ret (Except.ok c) ∧ c.buf = buf ∧
      c.Call = buf.ptr ∧
      Event.store buf.ptr (encodeUintptr arch (buf.ptr + (goFuncvalSize arch).toNat))
        ∈ (New arch goos os w bin).2.trace ∧
      decodeUintptr arch (loadBytes (New arch goos os w bin).2.mem buf.ptr arch.ptrSize)
        = buf.ptr + (goFuncvalSize arch).toNat ∧
      codePointer arch (New arch goos os w bin).2 c.Call = buf.ptr + (goFuncvalSize arch).toNat ∧
      buf.indexAddr (goFuncvalSize arch)
        = Outcome.ret (buf.ptr + (goFuncvalSize arch).toNat) := by
  obtain ⟨hlen, _, hn⟩ := alloc_ok_shape arch goos os w bin buf hne hsz hal
  have hg := goFuncvalSize_cases arch
  have hpos : 0 < bin.length := List.length_pos.mpr hne
  have hp := ptrSize_eq_toNat arch
  have hword : decodeUintptr arch (loadBytes (storeBytes (storeBytes
      ((w.log (allocEvent goos (bin.length + goFuncvalSize arch))).map buf.ptr
        ((bin.length : Int) + goFuncvalSize arch).toNat).mem buf.ptr
        (encodeUintptr arch (buf.ptr + (goFuncvalSize arch).toNat)))
        (buf.ptr + (goFuncvalSize arch).toNat) bin) buf.ptr arch.ptrSize)
      = buf.ptr + (goFuncvalSize arch).toNat := by
    rw [first_word_after_New, decode_encodeUintptr]
    apply Nat.mod_eq_of_lt
    have h256 : (256 : Nat) ^ arch.ptrSize = 2 ^ (8 * arch.ptrSize) := by
      rw [pow_mul]; norm_num
    rw [h256]
    omega
  rw [hn]
  refine ⟨_, rfl, rfl, rfl, ?_, hword, hword, ?_⟩
  · simp [World.store, World.log]
  · unfold Slice.indexAddr
    rw [if_pos (by omega)]

/-- Witness for C4: the amd64 test binary mapped at 4096; the code pointer
reached through `Call` is 4104. -/
theorem New_code_pointer_witness :
    ∃ c, (New amd64 GOOS.unix (osAlways 4096) World.init addSSEAmd64Binary).1
        = Outcome.ret (Except.ok c) ∧ c.buf = ⟨4096, 23, 23⟩ ∧ c.Call = 4096 ∧
      Event.store 4096 (encodeUintptr amd64 (4096 + (goFuncvalSize amd64).toNat))
        ∈ (New amd64 GOOS.unix (osAlways 4096) World.init addSSEAmd64Binary).2.trace ∧
      decodeUintptr amd64
        (loadBytes (New amd64 GOOS.unix (osAlways 4096) World.init addSSEAmd64Binary).2.mem
          4096 amd64.ptrSize) = 4096 + (goFuncvalSize amd64).toNat ∧
      codePointer amd64 (New amd64 GOOS.unix (osAlways 4096) World.init addSSEAmd64Binary).2
        c.Call = 4096 + (goFuncvalSize amd64).toNat ∧
      Slice.indexAddr ⟨4096, 23, 23⟩ (goFuncvalSize amd64)
        = Outcome.ret (4096 + (goFuncvalSize amd64).toNat) :=
  New_code_pointer amd64 GOOS.unix (osAlways 4096) World.init addSSEAmd64Binary ⟨4096, 23, 23⟩
    (by decide) (by decide) rfl (by decide)

/-! ## C5: exact sizing -/

/-- C5: once the size check has passed, the trace gains exactly one allocation
request, for `len(bin) + goFuncvalSize()` bytes; and whenever `New` returns a
Caller, its buffer has exactly that length and capacity and is the one region
added to the live regions. -/
theorem New_requests_exact_size (arch : Arch) (goos : GOOS) (os : OS) (w : World)
    (bin : List Byte) (hsz : ¬ (bin.length : Int) > 2 ^ 30 - goFuncvalSize arch) :
    allocRequests (New arch goos os w bin).2.trace
      = allocRequests w.trace ++ [(bin.length : Int) + goFuncvalSize arch] ∧
    ∀ c, (New arch goos os w bin).1 = Outcome.ret (Except.ok c) →
      c.buf.len = bin.length + goFuncvalSize arch ∧
      c.buf.cap = bin.length + goFuncvalSize arch ∧
      (New arch goos os w bin).2.live
        = w.live ++ [(c.buf.ptr, ((bin.length : Int) + goFuncvalSize arch).toNat)] := by
  obtain ⟨h0, _⟩ := size_in_range arch bin hsz
  have hev := allocRequest_allocEvent goos _ h0
  rcases New_cases arch goos os w bin hsz with ⟨e1, _, _, h⟩ | ⟨A, _, _, h⟩ | ⟨A, _, _, h⟩
  · rw [h]
    refine ⟨?_, fun c hc => by simp at hc⟩
    simp [World.log, allocRequests, List.filterMap_append, hev]
  · rw [h]
    refine ⟨?_, fun c hc => by simp at hc⟩
    simp [World.log, World.map, allocRequests, List.filterMap_append, hev]
  · rw [h]
    refine ⟨?_, fun c hc => ?_⟩
    · simp [World.log, World.map, World.store, allocRequests, List.filterMap_append,
        List.filterMap_cons_some hev, Event.allocRequest]
    · simp only [Outcome.ret.injEq, Except.ok.injEq] at hc
      subst hc
      simp [World.log, World.map, World.store]

/-- Witness for C5: the 15-byte amd64 test binary asks for 23 bytes. -/
theorem New_requests_exact_size_witness :
    allocRequests (New amd64 GOOS.windows (osAlways 4096) World.init addSSEAmd64Binary).2.trace
      = allocRequests World.init.trace ++ [(addSSEAmd64Binary.length : Int) + goFuncvalSize amd64] ∧
    (23 : Int) = addSSEAmd64Binary.length + goFuncvalSize amd64 :=
  ⟨(New_requests_exact_size amd64 GOOS.windows (osAlways 4096) World.init addSSEAmd64Binary
    (by decide)).1, by decide⟩

/-! ## C6: allocation failure -/

/-- C6: once the size check has passed, if the allocator fails with error `e`,
`New` returns no Caller and an error whose wrapped cause is `e`; the world is
the one the allocator left: memory and live regions are as before and the
trace has gained only the allocation request, which is neither a store nor a
release. -/
theorem New_alloc_failure (arch : Arch) (goos : GOOS) (os : OS) (w : World)
    (bin : List Byte) (e : GoError)
    (hsz : ¬ (bin.length : Int) > 2 ^ 30 - goFuncvalSize arch)
    (hal : (alloc goos os w (bin.length + goFuncvalSize arch)).1
      = Outcome.ret (Except.error e)) :
    (∃ err, (New arch goos os w bin).1 = Outcome.ret (Except.error err) ∧
      err.Unwrap = some e) ∧
    (New arch goos os w bin).2 = (alloc goos os w (bin.length + goFuncvalSize arch)).2 ∧
    (New arch goos os w bin).2.mem = w.mem ∧
    (New arch goos os w bin).2.live = w.live ∧
    (New arch goos os w bin).2.trace
      = w.trace ++ [allocEvent goos (bin.length + goFuncvalSize arch)] ∧
    (allocEvent goos (bin.length + goFuncvalSize arch)).isStore = false ∧
    (allocEvent goos (bin.length + goFuncvalSize arch)).isRelease = false := by
  have hk : (allocEvent goos (bin.length + goFuncvalSize arch)).isStore = false ∧
      (allocEvent goos (bin.length + goFuncvalSize arch)).isRelease = false := by
    cases goos <;> exact ⟨rfl, rfl⟩
  rcases New_cases arch goos os w bin hsz with ⟨e1, _, ha, h⟩ | ⟨A, _, ha, _⟩ | ⟨A, _, ha, _⟩
  · rw [ha] at hal
    simp only [Outcome.ret.injEq, Except.error.injEq] at hal
    subst hal
    rw [h, ha]
    exact ⟨⟨_, rfl, rfl⟩, rfl, rfl, rfl, rfl, hk⟩
  · rw [ha] at hal
    simp at hal
  · rw [ha] at hal
    simp at hal

/-- Witness for C6: the amd64 test binary on a platform that refuses every
request with errno 12. -/
theorem New_alloc_failure_witness :
    (∃ err, (New amd64 GOOS.unix (osNever 12) World.init addSSEAmd64Binary).1
        = Outcome.ret (Except.error err) ∧
      err.Unwrap = some (GoError.errorfWrap "mmap failed: %w" (GoError.errno 12))) ∧
    (New amd64 GOOS.unix (osNever 12) World.init addSSEAmd64Binary).2.live = [] ∧
    (New amd64 GOOS.unix (osNever 12) World.init addSSEAmd64Binary).2.trace = [Event.Mmap 23] :=
  have h := New_alloc_failure amd64 GOOS.unix (osNever 12) World.init addSSEAmd64Binary
    (GoError.errorfWrap "mmap failed: %w" (GoError.errno 12)) (by decide) rfl
  ⟨h.1, h.2.2.2.1, h.2.2.2.2.1⟩

/-! ## C7: the empty binary -/

/-- C7, evaluated at the failing input: on amd64 and on 386, with a platform
that grants the request, `New` on the empty binary asks the allocator for
`goFuncvalSize()` bytes and then panics on `codeBuf[gfs]`, leaving the region
allocated; with a platform that refuses, the error returned is the wrapped
allocation failure, not the size error. -/
theorem New_empty_binary_panics :
    New amd64 GOOS.unix (osAlways 4096) World.init []
      = (Outcome.panic (RuntimePanic.indexOutOfRange 8 8),
          (World.init.log (Event.Mmap 8)).map 4096 8) ∧
    (New amd64 GOOS.unix (osAlways 4096) World.init []).2.trace = [Event.Mmap 8] ∧
    (New amd64 GOOS.unix (osAlways 4096) World.init []).2.live = [(4096, 8)] ∧
    New i386 GOOS.windows (osAlways 4096) World.init []
      = (Outcome.panic (RuntimePanic.indexOutOfRange 4 4),
          (World.init.log (Event.VirtualAlloc 4)).map 4096 4) ∧
    New amd64 GOOS.unix (osNever 12) World.init []
      = (Outcome.ret (Except.error (GoError.errorfWrap "alloc failed: %w"
          (GoError.errorfWrap "mmap failed: %w" (GoError.errno 12)))),
          World.init.log (Event.Mmap 8)) ∧
    isSizeError (GoError.errorfWrap "alloc failed: %w"
      (GoError.errorfWrap "mmap failed: %w" (GoError.errno 12))) = false :=
  ⟨rfl, rfl, rfl, rfl, rfl, rfl⟩

/-! ## C8: Free -/

theorem New_ok_shape (arch : Arch) (goos : GOOS) (os : OS) (w : World) (bin : List Byte)
    (c : Caller) (hnew : (New arch goos os w bin).1 = Outcome.ret (Except.ok c)) :
    0 < (bin.length : Int) + goFuncvalSize arch ∧
    c.buf.len = bin.length + goFuncvalSize arch ∧
    (New arch goos os w bin).2.live
      = w.live ++ [(c.buf.ptr, ((bin.length : Int) + goFuncvalSize arch).toNat)] := by
  by_cases hsz : (bin.length : Int) > 2 ^ 30 - goFuncvalSize arch
  · rw [New_of_too_large arch goos os w bin hsz] at hnew
    simp at hnew
  · obtain ⟨h0, _⟩ := size_in_range arch bin hsz
    rcases New_cases arch goos os w bin hsz with ⟨e1, _, _, h⟩ | ⟨A, _, _, h⟩ | ⟨A, _, _, h⟩
    · rw [h] at hnew
      simp at hnew
    · rw [h] at hnew
      simp at hnew
    · rw [h] at hnew ⊢
      simp only [Outcome.ret.injEq, Except.ok.injEq] at hnew
      subst hnew
      exact ⟨h0, rfl, by simp [World.log, World.map, World.store]⟩

/-- C8: for a Caller `c` returned by a successful `New(bin)`, whose buffer is
the region `New` obtained (base `c.buf.ptr`, length `len(bin) + goFuncvalSize()`),
`c.Free()` in any later world adds exactly one event to the trace, the release
request for that region (`Munmap` of base and length on linux and darwin,
`VirtualFree` with `MEM_RELEASE` of the base on Windows); it returns an error
if and only if the platform refuses the release, that error wrapping the
error of `free`, which wraps the errno; and after a granted release the region
is no longer live. -/
theorem Free_releases_region (arch : Arch) (goos : GOOS) (os : OS) (w : World)
    (bin : List Byte) (c : Caller) (w2 : World)
    (hnew : (New arch goos os w bin).1 = Outcome.ret (Except.ok c)) :
    c.buf.len = bin.length + goFuncvalSize arch ∧
    (New arch goos os w bin).2.live
      = w.live ++ [(c.buf.ptr, ((bin.length : Int) + goFuncvalSize arch).toNat)] ∧
    (c.Free goos os w2).2.trace = w2.trace ++
      [match goos with
       | GOOS.unix => Event.Munmap c.buf.ptr (bin.length + goFuncvalSize arch)
       | GOOS.windows => Event.VirtualFree c.buf.ptr 0] ∧
    ((c.Free goos os w2).1 ≠ none ↔ osRelease goos os w2 c.buf ≠ none) ∧
    (∀ errno, osRelease goos os w2 c.buf = some errno →
      ∃ cause, (c.Free goos os w2).1 = some (GoError.errorfWrap "free failed: %w" cause) ∧
        cause.Unwrap = some (GoError.errno errno)) ∧
    (osRelease goos os w2 c.buf = none →
      (c.buf.ptr, ((bin.length : Int) + goFuncvalSize arch).toNat)
        ∉ (c.Free goos os w2).2.live) := by
  obtain ⟨h0, hlen, hlive⟩ := New_ok_shape arch goos os w bin c hnew
  refine ⟨hlen, hlive, ?_⟩
  cases goos with
  | unix =>
    simp only [Caller.Free, free, free_unix, syscall_Munmap, osRelease]
    cases h : os.munmap w2 c.buf.ptr c.buf.len with
    | some e =>
      refine ⟨by simp [World.log, hlen], by simp, ?_, by simp⟩
      intro errno he
      simp only [Option.some.injEq] at he
      subst he
      exact ⟨_, rfl, rfl⟩
    | none =>
      refine ⟨by simp [World.log, hlen], by simp, by simp, ?_⟩
      intro _
      simp [List.mem_filter, hlen]
  | windows =>
    have hne : ¬ c.buf.len = 0 := by omega
    simp only [Caller.Free, free, free_windows, windows_VirtualFree, osRelease, hne, if_false]
    cases h : os.virtualFree w2 c.buf.ptr 0 with
    | some e =>
      refine ⟨by simp [World.log], by simp, ?_, by simp⟩
      intro errno he
      simp only [Option.some.injEq] at he
      subst he
      exact ⟨_, rfl, rfl⟩
    | none =>
      refine ⟨by simp [World.log], by simp, by simp, ?_⟩
      intro _
      simp [List.mem_filter]

/-- Witness for C8: the amd64 test binary loaded at 4096 and then freed. -/
theorem Free_releases_region_witness :
    (New amd64 GOOS.unix (osAlways 4096) World.init addSSEAmd64Binary).1
      = Outcome.ret (Except.ok ⟨⟨4096, 23, 23⟩, 4096⟩) ∧
    (Caller.Free GOOS.unix (osAlways 4096)
      (New amd64 GOOS.unix (osAlways 4096) World.init addSSEAmd64Binary).2
      ⟨⟨4096, 23, 23⟩, 4096⟩).2.trace
      = (New amd64 GOOS.unix (osAlways 4096) World.init addSSEAmd64Binary).2.trace
          ++ [Event.Munmap 4096 ((addSSEAmd64Binary.length : Int) + goFuncvalSize amd64)] ∧
    (4096, ((addSSEAmd64Binary.length : Int) + goFuncvalSize amd64).toNat)
      ∉ (Caller.Free GOOS.unix (osAlways 4096)
          (New amd64 GOOS.unix (osAlways 4096) World.init addSSEAmd64Binary).2
          ⟨⟨4096, 23, 23⟩, 4096⟩).2.live :=
  have h := Free_releases_region amd64 GOOS.unix (osAlways 4096) World.init addSSEAmd64Binary
    ⟨⟨4096, 23, 23⟩, 4096⟩
    (New amd64 GOOS.unix (osAlways 4096) World.init addSSEAmd64Binary).2 rfl
  ⟨rfl, h.2.2.1, h.2.2.2.2.2 rfl⟩

/-! ## C10: the size passed to the allocator -/

/-- C10: for every binary accepted by the size check of `New`, the size
`s = len(bin) + goFuncvalSize()` passed to the allocator satisfies
`0 < s <= 2^30`; so on Windows `alloc` neither rejects it as an invalid size
nor panics in the slice expression `[:size:size]`, and `New` itself never
fails with the invalid-size error nor panics with a slice bound out of range. -/
theorem New_alloc_size_in_bounds (arch : Arch) (os : OS) (w : World) (bin : List Byte)
    (hsz : ¬ (bin.length : Int) > 2 ^ 30 - goFuncvalSize arch) :
    0 < (bin.length : Int) + goFuncvalSize arch ∧
    (bin.length : Int) + goFuncvalSize arch ≤ 2 ^ 30 ∧
    (∀ n, (alloc_windows os w (bin.length + goFuncvalSize arch)).1
      ≠ Outcome.ret (Except.error (GoError.errorfInt "invalid size: %d" n))) ∧
    (∀ p, (alloc_windows os w (bin.length + goFuncvalSize arch)).1 ≠ Outcome.panic p) ∧
    (∀ n, (New arch GOOS.windows os w bin).1
      ≠ Outcome.ret (Except.error (GoError.errorfWrap "alloc failed: %w"
          (GoError.errorfInt "invalid size: %d" n)))) ∧
    (∀ high capacity, (New arch GOOS.windows os w bin).1
      ≠ Outcome.panic (RuntimePanic.sliceBoundsOutOfRange high capacity)) := by
  obtain ⟨h0, h1⟩ := size_in_range arch bin hsz
  refine ⟨h0, h1, ?_, ?_, ?_, ?_⟩
  · intro n
    rcases alloc_cases GOOS.windows os w _ h0 h1 with ⟨e, ⟨f, k, hs⟩, he⟩ | ⟨A, hA⟩
    · simp only [alloc] at he
      rw [he, hs]
      simp
    · simp only [alloc] at hA
      rw [hA]
      simp
  · intro p
    rcases alloc_cases GOOS.windows os w _ h0 h1 with ⟨e, _, he⟩ | ⟨A, hA⟩
    · simp only [alloc] at he
      rw [he]
      simp
    · simp only [alloc] at hA
      rw [hA]
      simp
  · intro n
    rcases New_cases arch GOOS.windows os w bin hsz with
      ⟨e1, ⟨f, k, hs⟩, _, h⟩ | ⟨A, _, _, h⟩ | ⟨A, _, _, h⟩
    · rw [h, hs]
      simp
    · rw [h]
      simp
    · rw [h]
      simp
  · intro high capacity
    rcases New_cases arch GOOS.windows os w bin hsz with
      ⟨e1, _, _, h⟩ | ⟨A, _, _, h⟩ | ⟨A, _, _, h⟩
    · rw [h]
      simp
    · rw [h]
      simp
    · rw [h]
      simp

/-- Witness for C10: the 15-byte amd64 test binary, `s = 23`. -/
theorem New_alloc_size_in_bounds_witness :
    0 < (addSSEAmd64Binary.length : Int) + goFuncvalSize amd64 ∧
    (addSSEAmd64Binary.length : Int) + goFuncvalSize amd64 ≤ 2 ^ 30 ∧
    (∀ p, (alloc_windows (osAlways 4096) World.init
      (addSSEAmd64Binary.length + goFuncvalSize amd64)).1 ≠ Outcome.panic p) :=
  have h := New_alloc_size_in_bounds amd64 (osAlways 4096) World.init addSSEAmd64Binary
    (by decide)
  ⟨h.1, h.2.1, h.2.2.2.1⟩

end Rawexec
